import Mathlib

/-!
# Verification of `keras_contrib/initializers/convaware.py` (`ConvolutionAware`)

Shallow embedding of the `ConvolutionAware` initializer over the real numbers.

Modelling conventions, fixed once for the whole file:

* NumPy floating-point arithmetic is idealised as exact real arithmetic (`ℝ`).
* The process-wide NumPy random generator is modelled as a stream `g : ℕ → ℝ`
  of independent standard-normal draws, consumed sequentially; every draw site
  in the source is assigned its explicit offset into the stream, in the order
  the source consumes draws (per output filter: first the basis matrices, then
  the symmetry-breaking noise).  `np.random.seed(k)` replaces the current
  stream by a stream that is a function of `k` alone.
* The external numerical collaborators that the source calls but does not
  implement (`np.linalg.svd`, the `np.fft.irfft*` family, and the Keras
  `Orthogonal` fallback initializer) are opaque deterministic functions,
  bundled in `NpEnv`.  Only their shapes/types are fixed here, matching the
  NumPy contracts (e.g. `rfft` of a length-`n` real array has length
  `n / 2 + 1`).
* Arrays of a fixed rank are functions out of a product of `Fin` types; the
  transposes at the end of `__call__` are reindexings of those functions.
-/

/-- An array of unknown rank, used only for the orthogonal fallback path:
a shape together with (flattened) contents. -/
structure FArr where
  shape : List ℕ
  data : ℕ → ℝ

/-- The external numerical collaborators used by `ConvolutionAware.__call__`:
the seeded random stream, `np.linalg.svd` (only its `u` factor is used by the
source), the inverse real FFTs of each rank, and the Keras `Orthogonal`
fallback initializer (which may itself consume the random stream). -/
structure NpEnv where
  seedStream : ℤ → ℕ → ℝ
  svdU : (n : ℕ) → Matrix (Fin n) (Fin n) ℝ → Matrix (Fin n) (Fin n) ℝ
  irfft1 : (row : ℕ) → (Fin (row / 2 + 1) → ℝ) → Fin row → ℝ
  irfft2 : (r c : ℕ) → (Fin r × Fin (c / 2 + 1) → ℝ) → Fin r × Fin c → ℝ
  irfftn : (x y z : ℕ) → (Fin x × Fin y × Fin (z / 2 + 1) → ℝ) → Fin x × Fin y × Fin z → ℝ
  orth : List ℕ → (ℕ → ℝ) → FArr

/-- `np.random.normal(0.0, 1.0, (n, n))` drawn from the stream `g` starting at
offset `off`: entry `(i, j)` is draw number `off + i*n + j` (row-major order,
as NumPy fills arrays). -/
def gMat (g : ℕ → ℝ) (off n : ℕ) : Matrix (Fin n) (Fin n) ℝ :=
  Matrix.of fun i j => g (off + (i.val * n + j.val))

/-- The `ConvolutionAware` initializer object: `__init__` stores exactly these
two configuration fields (defaults in the source: `eps_std=0.05`,
`seed=None`); it performs no validation.  The third assignment of `__init__`
(`self.orthogonal = Orthogonal()`) is the fallback collaborator, modelled by
`NpEnv.orth`. -/
structure ConvolutionAware where
  eps_std : ℝ
  seed : Option ℤ

/-- `ConvolutionAware.__init__(eps_std, seed)`: stores the two parameters
unchanged (no validation of any kind in the source). -/
def ConvolutionAware.init (eps_std : ℝ) (seed : Option ℤ) : ConvolutionAware :=
  ⟨eps_std, seed⟩

/-- The dict returned by `get_config`: it has exactly the two keys
`'eps_std'` and `'seed'`, modelled as a two-field record. -/
structure ConvConfig where
  eps_std : ℝ
  seed : Option ℤ

/-- `ConvolutionAware.get_config`: returns `{'eps_std': self.eps_std,
'seed': self.seed}`. -/
def ConvolutionAware.get_config (c : ConvolutionAware) : ConvConfig :=
  ⟨c.eps_std, c.seed⟩

/-- Reconstruction of an initializer from its config dict, i.e.
`ConvolutionAware(**config)` as done by Keras deserialization. -/
def ConvolutionAware.fromConfig (cfg : ConvConfig) : ConvolutionAware :=
  ConvolutionAware.init cfg.eps_std cfg.seed

/-- `ConvolutionAware._symmetrize(a) = a + a.T - np.diag(a.diagonal())`. -/
def ConvolutionAware.symmetrize {n : ℕ} (a : Matrix (Fin n) (Fin n) ℝ) :
    Matrix (Fin n) (Fin n) ℝ :=
  a + a.transpose - Matrix.diagonal fun i => a i i

/-- `nbb = filters // size + 1`: the number of SVD blocks generated by
`_create_basis` (integer floor division, then plus one). -/
def ConvolutionAware.createBasisNbb (filters size : ℕ) : ℕ :=
  filters / size + 1

/-- Modelled from the spec: the number of repetitions the spec claims for the
Basis Generator, `ceil(count/dim)`. -/
def specCeilBlocks (count dim : ℕ) : ℕ :=
  (count + dim - 1) / dim

/-- The candidate basis rows accumulated by the `for i in range(nbb)` loop of
`_create_basis` (the list `li` before truncation): for each block `b`, the
source draws a fresh `size × size` standard-normal matrix (at stream offset
`off + b*size*size`), symmetrizes it, takes `u` from its SVD, and appends the
rows of `u.T` (i.e. the columns of `u`). -/
def ConvolutionAware.basisCandidates
    (svdU : (n : ℕ) → Matrix (Fin n) (Fin n) ℝ → Matrix (Fin n) (Fin n) ℝ)
    (g : ℕ → ℝ) (off filters size : ℕ) : List (Fin size → ℝ) :=
  (List.range (ConvolutionAware.createBasisNbb filters size)).flatMap fun b =>
    (List.finRange size).map fun j => fun i =>
      svdU size (ConvolutionAware.symmetrize (gMat g (off + b * (size * size)) size)) i j

/-- `ConvolutionAware._create_basis(filters, size)` drawing from stream `g` at
offset `off`.  If `size == 1` it returns `filters` independent
`normal(0, eps_std)` scalars (one draw each); otherwise it truncates the
accumulated candidate rows to the first `filters` ones
(`np.array(li[:filters])`). -/
def ConvolutionAware.createBasisRows
    (svdU : (n : ℕ) → Matrix (Fin n) (Fin n) ℝ → Matrix (Fin n) (Fin n) ℝ)
    (eps : ℝ) (g : ℕ → ℝ) (off filters size : ℕ) : List (Fin size → ℝ) :=
  if size = 1 then
    (List.range filters).map fun k => fun _ => eps * g (off + k)
  else
    (ConvolutionAware.basisCandidates svdU g off filters size).take filters

/-- Number of draws `_create_basis(filters, size)` consumes from the global
stream: `filters` scalars in the degenerate branch, otherwise one
`size × size` matrix per block. -/
def ConvolutionAware.basisDrawCount (filters size : ℕ) : ℕ :=
  if size = 1 then filters else ConvolutionAware.createBasisNbb filters size * (size * size)

/-- The basis as a `(filters, size)` matrix (row `s` of `p`), via `getD` with a
default that is never reached for in-range indices. -/
def ConvolutionAware.basisFn
    (svdU : (n : ℕ) → Matrix (Fin n) (Fin n) ℝ → Matrix (Fin n) (Fin n) ℝ)
    (eps : ℝ) (g : ℕ → ℝ) (off filters size : ℕ) (s : ℕ) : Fin size → ℝ :=
  (ConvolutionAware.createBasisRows svdU eps g off filters size).getD s fun _ => 0

/-- The flat position of a 2-dimensional index (row-major), as NumPy
`reshape` pairs indices with flat positions. -/
def flatIdx {r fc : ℕ} (i : Fin r) (j : Fin fc) : Fin (r * fc) :=
  ⟨i.val * fc + j.val, by
    have h1 : i.val * fc + j.val < (i.val + 1) * fc := by
      have hj := j.isLt
      calc i.val * fc + j.val < i.val * fc + fc := by omega
      _ = (i.val + 1) * fc := by ring
    exact lt_of_lt_of_le h1 (Nat.mul_le_mul_right fc i.isLt)⟩

/-- `basis.reshape((stack_size,) + kernel_fourier_shape)` for a rank-2 fourier
shape: view a flat row of length `r * fc` as an `(r, fc)` array. -/
def reshape2 (r fc : ℕ) (v : Fin (r * fc) → ℝ) : Fin r × Fin fc → ℝ :=
  fun p => v (flatIdx p.1 p.2)

/-- Same for a rank-3 fourier shape `(x, y, fz)` (row-major). -/
def reshape3 (x y fz : ℕ) (v : Fin (x * y * fz) → ℝ) : Fin x × Fin y × Fin fz → ℝ :=
  fun p => v (flatIdx (flatIdx p.1 p.2.1) p.2.2)

/-- Mean of all entries of a finitely-indexed real array (`np.mean`). -/
noncomputable def fmean {α : Type} [Fintype α] (f : α → ℝ) : ℝ :=
  (∑ a, f a) / (Fintype.card α : ℝ)

/-- Population variance of all entries of a finitely-indexed real array
(`np.var`, default `ddof=0`). -/
noncomputable def fvar {α : Type} [Fintype α] (f : α → ℝ) : ℝ :=
  (∑ a, (f a - fmean f) ^ 2) / (Fintype.card α : ℝ)

/-- Modelled from the spec: `_compute_fans(shape, K.image_data_format())` from
`keras.initializers` is imported, not part of this repository.  Per the spec
(§4.2), with the default `channels_last` data format and a rank-3/4/5 shape,
`fan_in` is `in_channels` (`shape[-2]`) times the product of the spatial
dimensions (`shape[:-2]`). -/
def fanInCL (shape : List ℕ) : ℕ :=
  shape.getD (shape.length - 2) 1 * (shape.take (shape.length - 2)).prod

/-- The rank-3 filter bank `init` before scaling and transposition, as an
array indexed `(filters, stack, row)` — the source comment:
`Format of array is now: filters, stack, row, column`.  Per output filter `f`
the source first consumes the basis draws, then per stack element the
`normal(0, eps_std, kernel_shape)` noise; entry
`= irfft(basis_row, row) + noise`.  The fourier kernel size is
`row / 2 + 1` (= `np.fft.rfft(np.zeros(row)).shape[0]`). -/
noncomputable def bank3 (E : NpEnv) (eps : ℝ) (g : ℕ → ℝ) (row S F : ℕ) :
    Fin F × Fin S × Fin row → ℝ :=
  fun q =>
    E.irfft1 row
      (ConvolutionAware.basisFn E.svdU eps g
        (q.1.val * (ConvolutionAware.basisDrawCount S (row / 2 + 1) + S * row))
        S (row / 2 + 1) q.2.1.val) q.2.2
    + eps * g (q.1.val * (ConvolutionAware.basisDrawCount S (row / 2 + 1) + S * row)
        + ConvolutionAware.basisDrawCount S (row / 2 + 1) + q.2.1.val * row + q.2.2.val)

/-- The rank-3 output of `__call__`: the scaled bank transposed by
`(2, 1, 0)`, i.e. reindexed `(row, stack, filters)`.  `v` is the
`variance = 2 / fan_in` computed by `__call__`; the scale factor is
`np.sqrt(variance / np.var(init))` from `_scale_filters`. -/
noncomputable def callRank3 (E : NpEnv) (eps v : ℝ) (g : ℕ → ℝ) (row S F : ℕ) :
    Fin row × Fin S × Fin F → ℝ :=
  fun q => bank3 E eps g row S F (q.2.2, q.2.1, q.1)
    * Real.sqrt (v / fvar (bank3 E eps g row S F))

/-- The rank-4 filter bank before scaling/transposition, indexed
`(filters, stack, row, column)`.  Fourier kernel shape:
`(r, c / 2 + 1)` (= `np.fft.rfft2(np.zeros((r, c))).shape`), flattened size
`r * (c / 2 + 1)`; each basis row is reshaped to it before `irfft2`. -/
noncomputable def bank4 (E : NpEnv) (eps : ℝ) (g : ℕ → ℝ) (r c S F : ℕ) :
    Fin F × Fin S × Fin r × Fin c → ℝ :=
  fun q =>
    E.irfft2 r c
      (reshape2 r (c / 2 + 1)
        (ConvolutionAware.basisFn E.svdU eps g
          (q.1.val * (ConvolutionAware.basisDrawCount S (r * (c / 2 + 1)) + S * (r * c)))
          S (r * (c / 2 + 1)) q.2.1.val)) q.2.2
    + eps * g (q.1.val * (ConvolutionAware.basisDrawCount S (r * (c / 2 + 1)) + S * (r * c))
        + ConvolutionAware.basisDrawCount S (r * (c / 2 + 1))
        + q.2.1.val * (r * c) + (q.2.2.1.val * c + q.2.2.2.val))

/-- The rank-4 output of `__call__`: the scaled bank transposed by
`transpose_dimensions = (2, 3, 0, 1)`.  NumPy semantics: axis `k` of the
result is axis `(2,3,0,1)[k]` of the internal `(filters, stack, row, col)`
array, so the result is indexed `(row, col, filters, stack)`. -/
noncomputable def callRank4 (E : NpEnv) (eps v : ℝ) (g : ℕ → ℝ) (r c S F : ℕ) :
    Fin r × Fin c × Fin F × Fin S → ℝ :=
  fun q => bank4 E eps g r c S F (q.2.2.1, q.2.2.2, q.1, q.2.1)
    * Real.sqrt (v / fvar (bank4 E eps g r c S F))

/-- The rank-5 filter bank before scaling/transposition, indexed
`(filters, stack, x, y, z)`.  Fourier kernel shape `(x, y, z / 2 + 1)`
(= `np.fft.rfftn(np.zeros((x, y, z))).shape`). -/
noncomputable def bank5 (E : NpEnv) (eps : ℝ) (g : ℕ → ℝ) (x y z S F : ℕ) :
    Fin F × Fin S × Fin x × Fin y × Fin z → ℝ :=
  fun q =>
    E.irfftn x y z
      (reshape3 x y (z / 2 + 1)
        (ConvolutionAware.basisFn E.svdU eps g
          (q.1.val * (ConvolutionAware.basisDrawCount S (x * y * (z / 2 + 1)) + S * (x * y * z)))
          S (x * y * (z / 2 + 1)) q.2.1.val)) (q.2.2.1, q.2.2.2.1, q.2.2.2.2)
    + eps * g (q.1.val * (ConvolutionAware.basisDrawCount S (x * y * (z / 2 + 1)) + S * (x * y * z))
        + ConvolutionAware.basisDrawCount S (x * y * (z / 2 + 1))
        + q.2.1.val * (x * y * z)
        + (q.2.2.1.val * (y * z) + q.2.2.2.1.val * z + q.2.2.2.2.val))

/-- The rank-5 output of `__call__`: the scaled bank transposed by
`transpose_dimensions = (3, 4, 0, 1, 2)`.  NumPy semantics: the result is
indexed `(y, z, filters, stack, x)`. -/
noncomputable def callRank5 (E : NpEnv) (eps v : ℝ) (g : ℕ → ℝ) (x y z S F : ℕ) :
    Fin y × Fin z × Fin F × Fin S × Fin x → ℝ :=
  fun q => bank5 E eps g x y z S F (q.2.2.1, q.2.2.2.1, q.2.2.2.2, q.1, q.2.1)
    * Real.sqrt (v / fvar (bank5 E eps g x y z S F))

/-- The value returned by `__call__`: an array of rank 3, 4 or 5 on the
spectral path, or the fallback array. -/
inductive CallOut where
  | a3 : (d1 d2 d3 : ℕ) → (Fin d1 × Fin d2 × Fin d3 → ℝ) → CallOut
  | a4 : (d1 d2 d3 d4 : ℕ) → (Fin d1 × Fin d2 × Fin d3 × Fin d4 → ℝ) → CallOut
  | a5 : (d1 d2 d3 d4 d5 : ℕ) → (Fin d1 × Fin d2 × Fin d3 × Fin d4 × Fin d5 → ℝ) → CallOut
  | fb : FArr → CallOut

/-- The shape of the returned array. -/
def outShape : CallOut → List ℕ
  | .a3 d1 d2 d3 _ => [d1, d2, d3]
  | .a4 d1 d2 d3 d4 _ => [d1, d2, d3, d4]
  | .a5 d1 d2 d3 d4 d5 _ => [d1, d2, d3, d4, d5]
  | .fb a => a.shape

/-- Lines 28-29 of the source: `if self.seed is not None:
np.random.seed(self.seed)`.  With a configured seed the global stream is
replaced by `seedStream seed`; otherwise the incoming global stream is used
as-is. -/
def postSeed (E : NpEnv) (seed : Option ℤ) (g : ℕ → ℝ) : ℕ → ℝ :=
  match seed with
  | some k => E.seedStream k
  | none => g

/-- `ConvolutionAware.__call__(shape)` with the global random stream `g`:
optional seeding, `variance = 2 / fan_in`, rank dispatch on `len(shape)`
(destructuring `(row, stack, filters)`, `(row, col, stack, filters)`,
`(x, y, z, stack, filters)`), spectral synthesis + `_scale_filters` +
transpose on ranks 3/4/5, and `K.variable(self.orthogonal(shape))` otherwise. -/
noncomputable def ConvolutionAware.call (c : ConvolutionAware) (E : NpEnv)
    (shape : List ℕ) (g : ℕ → ℝ) : CallOut :=
  let g1 := postSeed E c.seed g
  match shape with
  | [row, S, F] => .a3 row S F (callRank3 E c.eps_std (2 / (fanInCL [row, S, F] : ℝ)) g1 row S F)
  | [r, c4, S, F] => .a4 r c4 F S (callRank4 E c.eps_std (2 / (fanInCL [r, c4, S, F] : ℝ)) g1 r c4 S F)
  | [x, y, z, S, F] => .a5 y z F S x (callRank5 E c.eps_std (2 / (fanInCL [x, y, z, S, F] : ℝ)) g1 x y z S F)
  | s => .fb (E.orth s g1)

/-- A concrete trivial environment, used to evaluate the embedded `__call__`
at specific inputs: all collaborators return zeros (resp. the identity matrix
for the SVD factor, and a correctly-shaped array for the fallback). -/
def envT : NpEnv :=
  ⟨fun _ _ => 0, fun _ _ => 1, fun _ _ _ => 0, fun _ _ _ _ => 0, fun _ _ _ _ _ => 0,
    fun s h => ⟨s, h⟩⟩

/-- `np.var` of a flat list of reals (population variance), used for the
list-level view of `_scale_filters`. -/
noncomputable def npVar (xs : List ℝ) : ℝ :=
  ((xs.map fun x => (x - xs.sum / (xs.length : ℝ)) ^ 2).sum) / (xs.length : ℝ)

/-- `ConvolutionAware._scale_filters(filters, variance)` on the flattened
bank: `p = np.sqrt(variance / np.var(filters)); return filters * p`.  There
is no guard of any kind before the division. -/
noncomputable def ConvolutionAware.scale_filters (filters : List ℝ) (variance : ℝ) : List ℝ :=
  filters.map fun x => x * Real.sqrt (variance / npVar filters)

/-- The variance of all entries is invariant under a bijective reindexing of
the array (in particular under `np.transpose`). -/
theorem fvar_reindex {α β : Type} [Fintype α] [Fintype β] (t : α → β)
    (ht : Function.Bijective t) (f : β → ℝ) :
    fvar (fun a => f (t a)) = fvar f := by
  have hcard : Fintype.card α = Fintype.card β := Fintype.card_of_bijective ht
  have hmean : fmean (fun a => f (t a)) = fmean f := by
    unfold fmean
    rw [Function.Bijective.sum_comp ht f, hcard]
  unfold fvar
  rw [hmean, hcard,
    Function.Bijective.sum_comp ht (fun b => (f b - fmean f) ^ 2)]

/-- Scaling every entry by `p` multiplies the mean by `p`. -/
theorem fmean_mul_const {α : Type} [Fintype α] (f : α → ℝ) (p : ℝ) :
    fmean (fun a => f a * p) = fmean f * p := by
  unfold fmean
  rw [← Finset.sum_mul, mul_div_right_comm]

/-- Scaling every entry by `p` multiplies the variance by `p ^ 2`. -/
theorem fvar_mul_const {α : Type} [Fintype α] (f : α → ℝ) (p : ℝ) :
    fvar (fun a => f a * p) = fvar f * p ^ 2 := by
  unfold fvar
  rw [fmean_mul_const]
  have h : ∑ a, (f a * p - fmean f * p) ^ 2 = ∑ a, (f a - fmean f) ^ 2 * p ^ 2 :=
    Finset.sum_congr rfl fun a _ => by ring
  rw [h, ← Finset.sum_mul, mul_div_right_comm]

/-- The core of `_scale_filters` in exact arithmetic: if the bank has
(strictly) positive empirical variance and the target variance is
nonnegative, multiplying every entry by `sqrt(variance / np.var(bank))`
produces an array of variance exactly `variance`. -/
theorem fvar_scale {α : Type} [Fintype α] (f : α → ℝ) (v : ℝ)
    (hv : 0 ≤ v) (hf : 0 < fvar f) :
    fvar (fun a => f a * Real.sqrt (v / fvar f)) = v := by
  rw [fvar_mul_const, Real.sq_sqrt (div_nonneg hv (le_of_lt hf)), mul_comm,
    div_mul_cancel₀ v (ne_of_gt hf)]

/-- Rank-3 instance of the rescaling property: the `(2,1,0)` transpose is a
bijective reindexing, so the output variance is exactly the target. -/
theorem callRank3_fvar (E : NpEnv) (eps v : ℝ) (g : ℕ → ℝ) (row S F : ℕ)
    (hv : 0 ≤ v) (hb : 0 < fvar (bank3 E eps g row S F)) :
    fvar (callRank3 E eps v g row S F) = v := by
  have hbij : Function.Bijective
      (fun q : Fin row × Fin S × Fin F => (q.2.2, q.2.1, q.1) : _ → Fin F × Fin S × Fin row) :=
    Function.bijective_iff_has_inverse.mpr
      ⟨fun q => (q.2.2, q.2.1, q.1), fun q => rfl, fun q => rfl⟩
  unfold callRank3
  exact (fvar_reindex _ hbij
      (fun idx => bank3 E eps g row S F idx
        * Real.sqrt (v / fvar (bank3 E eps g row S F)))).trans
    (fvar_scale (bank3 E eps g row S F) v hv hb)

/-- Rank-4 instance of the rescaling property (transpose `(2,3,0,1)`). -/
theorem callRank4_fvar (E : NpEnv) (eps v : ℝ) (g : ℕ → ℝ) (r c S F : ℕ)
    (hv : 0 ≤ v) (hb : 0 < fvar (bank4 E eps g r c S F)) :
    fvar (callRank4 E eps v g r c S F) = v := by
  have hbij : Function.Bijective
      (fun q : Fin r × Fin c × Fin F × Fin S => (q.2.2.1, q.2.2.2, q.1, q.2.1) :
        _ → Fin F × Fin S × Fin r × Fin c) :=
    Function.bijective_iff_has_inverse.mpr
      ⟨fun q => (q.2.2.1, q.2.2.2, q.1, q.2.1), fun q => rfl, fun q => rfl⟩
  unfold callRank4
  exact (fvar_reindex _ hbij
      (fun idx => bank4 E eps g r c S F idx
        * Real.sqrt (v / fvar (bank4 E eps g r c S F)))).trans
    (fvar_scale (bank4 E eps g r c S F) v hv hb)

/-- Rank-5 instance of the rescaling property (transpose `(3,4,0,1,2)`). -/
theorem callRank5_fvar (E : NpEnv) (eps v : ℝ) (g : ℕ → ℝ) (x y z S F : ℕ)
    (hv : 0 ≤ v) (hb : 0 < fvar (bank5 E eps g x y z S F)) :
    fvar (callRank5 E eps v g x y z S F) = v := by
  have hbij : Function.Bijective
      (fun q : Fin y × Fin z × Fin F × Fin S × Fin x =>
        (q.2.2.1, q.2.2.2.1, q.2.2.2.2, q.1, q.2.1) :
        _ → Fin F × Fin S × Fin x × Fin y × Fin z) :=
    Function.bijective_iff_has_inverse.mpr
      ⟨fun q => (q.2.2.2.1, q.2.2.2.2, q.1, q.2.1, q.2.2.1), fun q => rfl, fun q => rfl⟩
  unfold callRank5
  exact (fvar_reindex _ hbij
      (fun idx => bank5 E eps g x y z S F idx
        * Real.sqrt (v / fvar (bank5 E eps g x y z S F)))).trans
    (fvar_scale (bank5 E eps g x y z S F) v hv hb)

/-- `fan_in` of a rank-3 shape `(row, stack, filters)` under `channels_last`:
`stack * row`. -/
theorem fanInCL_rank3 (a b c : ℕ) : fanInCL [a, b, c] = b * a := by
  simp [fanInCL]

/-- `fan_in` of a rank-4 shape `(row, col, stack, filters)` under
`channels_last`: `stack * (row * col)`. -/
theorem fanInCL_rank4 (a b c d : ℕ) : fanInCL [a, b, c, d] = c * (a * b) := by
  simp [fanInCL]

/-- `fan_in` of a rank-5 shape `(x, y, z, stack, filters)` under
`channels_last`: `stack * (x * (y * z))`. -/
theorem fanInCL_rank5 (a b c d e : ℕ) : fanInCL [a, b, c, d, e] = d * (a * (b * c)) := by
  simp [fanInCL]

/-- C1: evaluation of the embedded `__call__` at the failing input
`shape = (1, 1, 2, 3)` (rank 4): the internal `(filters, stack, row, col)`
array is transposed by `(2, 3, 0, 1)`, which yields shape
`(row, col, filters, stack) = (1, 1, 3, 2)`, not the input shape
`(1, 1, 2, 3)` required of an initializer. -/
theorem convaware_c1_shape_eval :
    outShape (ConvolutionAware.call (ConvolutionAware.init (1 / 20) (some 42)) envT
        [1, 1, 2, 3] (fun _ => 0)) = [1, 1, 3, 2]
  ∧ [1, 1, 3, 2] ≠ [1, 1, 2, 3] :=
  ⟨rfl, by decide⟩

/-- C3: a configured integer seed makes `__call__` a deterministic function of
`(seed, shape, eps_std)`: `np.random.seed(self.seed)` replaces the global
random state, so the result does not depend on the incoming global stream —
two calls with the same seed, shape and `eps_std` return identical arrays. -/
theorem convaware_c3_seed_determinism :
    ∀ (E : NpEnv) (eps : ℝ) (k : ℤ) (shape : List ℕ) (g1 g2 : ℕ → ℝ),
      ConvolutionAware.call ⟨eps, some k⟩ E shape g1
        = ConvolutionAware.call ⟨eps, some k⟩ E shape g2 :=
  fun _ _ _ _ _ _ => rfl

/-- C9 counterexample: `__init__` accepts `eps_std = -1` (and `0`) and simply
stores it — no `ConfigurationError` (nor any error path) exists in the
constructor. -/
theorem convaware_c9_accepts_nonpositive :
    (ConvolutionAware.init (-1) none).eps_std = -1
  ∧ (ConvolutionAware.init 0 none).eps_std = 0 :=
  ⟨rfl, rfl⟩

/-- C9 (amended): the constructor performs no validation whatsoever: every
`eps_std` (including zero and negative values) and every seed are stored
unchanged, and construction always succeeds. -/
theorem convaware_c9_no_validation :
    ∀ (e : ℝ) (s : Option ℤ),
      (ConvolutionAware.init e s).eps_std = e ∧ (ConvolutionAware.init e s).seed = s :=
  fun _ _ => ⟨rfl, rfl⟩

/-- C10: `get_config` returns exactly the two entries `eps_std` and `seed`
with the constructor's values, and rebuilding a `ConvolutionAware` from that
config yields an initializer with identical configuration. -/
theorem convaware_c10_roundtrip :
    ∀ (e : ℝ) (s : Option ℤ),
      ConvolutionAware.get_config (ConvolutionAware.init e s) = ⟨e, s⟩
    ∧ ConvolutionAware.fromConfig (ConvolutionAware.get_config (ConvolutionAware.init e s))
        = ConvolutionAware.init e s :=
  fun _ _ => ⟨rfl, rfl⟩

/-- C6: `_symmetrize` computes exactly `a + a.T - diag(diag(a))` — entry
`(i, j)` with `i ≠ j` is `a i j + a j i`, entry `(i, i)` is `a i i` — and the
result is always symmetric; and this pinned formula differs from the
conventional `(a + a.T) / 2` on some matrix. -/
theorem convaware_c6_symmetrize :
    (∀ (n : ℕ) (a : Matrix (Fin n) (Fin n) ℝ),
        (ConvolutionAware.symmetrize a).IsSymm
      ∧ (∀ i j : Fin n, i ≠ j → ConvolutionAware.symmetrize a i j = a i j + a j i)
      ∧ ∀ i : Fin n, ConvolutionAware.symmetrize a i i = a i i)
  ∧ ∃ b : Matrix (Fin 2) (Fin 2) ℝ,
      ConvolutionAware.symmetrize b ≠ (2⁻¹ : ℝ) • (b + b.transpose) := by
  have he : ∀ (n : ℕ) (a : Matrix (Fin n) (Fin n) ℝ) (i j : Fin n),
      ConvolutionAware.symmetrize a i j = a i j + a j i - if i = j then a i i else 0 := by
    intro n a i j
    simp [ConvolutionAware.symmetrize, Matrix.sub_apply, Matrix.add_apply,
      Matrix.transpose_apply, Matrix.diagonal_apply]
  constructor
  · intro n a
    refine ⟨?_, ?_, ?_⟩
    · show Matrix.transpose (ConvolutionAware.symmetrize a) = ConvolutionAware.symmetrize a
      ext i j
      rw [Matrix.transpose_apply, he, he]
      by_cases h : i = j
      · subst h; ring_nf
      · rw [if_neg h, if_neg (Ne.symm h)]; ring
    · intro i j hij
      rw [he, if_neg hij, sub_zero]
    · intro i
      rw [he, if_pos rfl]; ring
  · refine ⟨Matrix.of fun i j => if i.val = 0 ∧ j.val = 1 then (1 : ℝ) else 0, fun hEq => ?_⟩
    have h01 := congrFun (congrFun hEq 0) 1
    rw [he] at h01
    norm_num [Matrix.smul_apply, Matrix.add_apply, Matrix.transpose_apply,
      Matrix.of_apply] at h01

/-- C7: for every shape whose rank is not 3, 4 or 5 (in particular rank 1 and
rank 2), `__call__` takes no error path: it returns
`K.variable(self.orthogonal(shape))`, the orthogonal initialization of
exactly the requested shape, and performs no spectral (FFT) processing (the
result is the fallback arm, not a spectral array).  The hypothesis on
`E.orth` is the Keras `Orthogonal` contract (it returns an array of the
requested shape), which is external to this repository. -/
theorem convaware_c7_fallback_behavior :
    ∀ (c : ConvolutionAware) (E : NpEnv) (shape : List ℕ) (g : ℕ → ℝ),
      shape.length ≠ 3 → shape.length ≠ 4 → shape.length ≠ 5 →
      (∀ (s : List ℕ) (h : ℕ → ℝ), (E.orth s h).shape = s) →
      ConvolutionAware.call c E shape g = CallOut.fb (E.orth shape (postSeed E c.seed g))
      ∧ outShape (ConvolutionAware.call c E shape g) = shape := by
  intro c E shape g h3 h4 h5 horth
  rcases shape with _ | ⟨a, _ | ⟨b, _ | ⟨d, _ | ⟨e, _ | ⟨f, _ | ⟨k, t⟩⟩⟩⟩⟩⟩
  · exact ⟨rfl, horth [] _⟩
  · exact ⟨rfl, horth [a] _⟩
  · exact ⟨rfl, horth [a, b] _⟩
  · exact absurd rfl h3
  · exact absurd rfl h4
  · exact absurd rfl h5
  · exact ⟨rfl, horth _ _⟩

/-- C7 witness: the rank-2 shape `(7, 7)` falls back to the orthogonal
initializer and the output shape is the requested `(7, 7)`. -/
theorem convaware_c7_fallback_witness :
    ConvolutionAware.call (ConvolutionAware.init (1 / 20) none) envT [7, 7] (fun _ => 0)
        = CallOut.fb (envT.orth [7, 7] (postSeed envT none (fun _ => 0)))
    ∧ outShape (ConvolutionAware.call (ConvolutionAware.init (1 / 20) none) envT [7, 7]
        (fun _ => 0)) = [7, 7] :=
  convaware_c7_fallback_behavior (ConvolutionAware.init (1 / 20) none) envT [7, 7]
    (fun _ => 0) (by decide) (by decide) (by decide) (fun _ _ => rfl)

/-- C8 counterexample: at the concrete degenerate bank `[1, 1]` (empirical
variance exactly `0`, as with `in_channels == 1` and zero noise),
`_scale_filters` signals nothing: it is a total function and returns a plain
value (in the exact-real idealisation, `sqrt(variance / 0) = 0`, so the
all-zero bank; NumPy would return `nan`/`inf` entries — in neither semantics
is a `DegenerateScalingError` raised). -/
theorem convaware_c8_noerror_cex :
    npVar [(1 : ℝ), 1] = 0
  ∧ ConvolutionAware.scale_filters [(1 : ℝ), 1] (1 / 2) = [0, 0] := by
  have h : npVar [(1 : ℝ), 1] = 0 := by
    norm_num [npVar]
  refine ⟨h, ?_⟩
  simp [ConvolutionAware.scale_filters, h]

/-- C8 (amended): `_scale_filters` does not guard the division by the bank's
empirical variance: on any bank of zero variance it still returns a scaled
bank of the same length (all zeros under the exact-real convention
`x / 0 = 0`; non-finite values in NumPy), and no error is signalled. -/
theorem convaware_c8_degenerate_total :
    ∀ (bank : List ℝ) (v : ℝ), npVar bank = 0 →
      ConvolutionAware.scale_filters bank v = List.replicate bank.length 0 := by
  intro bank v h
  unfold ConvolutionAware.scale_filters
  rw [h, div_zero, Real.sqrt_zero]
  simp

/-- C8 witness: the amended statement applied at the degenerate bank `[1, 1]`
with target variance `1/3`. -/
theorem convaware_c8_degenerate_witness :
    ConvolutionAware.scale_filters [(1 : ℝ), 1] (1 / 3) = List.replicate 2 0 :=
  convaware_c8_degenerate_total [(1 : ℝ), 1] (1 / 3) (by norm_num [npVar])

/-- C2: for every supported rank (3/4/5), the empirical variance over all
elements of the array returned by `__call__` equals the target
`variance = 2 / fan_in`, with `fan_in` the product of the spatial dimensions
times `in_channels` — provided the assembled pre-scale bank has nonzero
empirical variance (the almost-sure situation the claim's `in_channels > 1`
condition stands for), because `_scale_filters` multiplies every element by
`sqrt(variance / np.var(bank))` and the final transpose only permutes
elements. -/
theorem convaware_c2_variance :
    (∀ (E : NpEnv) (eps : ℝ) (g : ℕ → ℝ) (row S F : ℕ),
        0 < fvar (bank3 E eps g row S F) →
        fvar (callRank3 E eps (2 / (fanInCL [row, S, F] : ℝ)) g row S F)
          = 2 / ((row * S : ℕ) : ℝ))
  ∧ (∀ (E : NpEnv) (eps : ℝ) (g : ℕ → ℝ) (r c S F : ℕ),
        0 < fvar (bank4 E eps g r c S F) →
        fvar (callRank4 E eps (2 / (fanInCL [r, c, S, F] : ℝ)) g r c S F)
          = 2 / ((r * c * S : ℕ) : ℝ))
  ∧ (∀ (E : NpEnv) (eps : ℝ) (g : ℕ → ℝ) (x y z S F : ℕ),
        0 < fvar (bank5 E eps g x y z S F) →
        fvar (callRank5 E eps (2 / (fanInCL [x, y, z, S, F] : ℝ)) g x y z S F)
          = 2 / ((x * y * z * S : ℕ) : ℝ)) := by
  refine ⟨?_, ?_, ?_⟩
  · intro E eps g row S F hb
    have hf : ((fanInCL [row, S, F] : ℕ) : ℝ) = ((row * S : ℕ) : ℝ) := by
      rw [fanInCL_rank3]; push_cast; ring
    rw [hf]
    exact callRank3_fvar E eps _ g row S F
      (div_nonneg (by norm_num) (Nat.cast_nonneg _)) hb
  · intro E eps g r c S F hb
    have hf : ((fanInCL [r, c, S, F] : ℕ) : ℝ) = ((r * c * S : ℕ) : ℝ) := by
      rw [fanInCL_rank4]; push_cast; ring
    rw [hf]
    exact callRank4_fvar E eps _ g r c S F
      (div_nonneg (by norm_num) (Nat.cast_nonneg _)) hb
  · intro E eps g x y z S F hb
    have hf : ((fanInCL [x, y, z, S, F] : ℕ) : ℝ) = ((x * y * z * S : ℕ) : ℝ) := by
      rw [fanInCL_rank5]; push_cast; ring
    rw [hf]
    exact callRank5_fvar E eps _ g x y z S F
      (div_nonneg (by norm_num) (Nat.cast_nonneg _)) hb

/-- C2 witness: the rank-3 statement applied at the concrete shape
`(2, 1, 1)` with `eps_std = 1`, the trivial environment, and the stream
`g n = n`, whose pre-scale bank is `(4, 5)` (variance `1/4 > 0`); the output
variance is exactly `2 / fan_in = 1`. -/
theorem convaware_c2_variance_witness :
    fvar (callRank3 envT 1 (2 / (fanInCL [2, 1, 1] : ℝ)) (fun n => (n : ℝ)) 2 1 1)
      = 2 / ((2 * 1 : ℕ) : ℝ) := by
  have hb : bank3 envT 1 (fun n => (n : ℝ)) 2 1 1
      = fun q : Fin 1 × Fin 1 × Fin 2 => (4 : ℝ) + (q.2.2.val : ℝ) := by
    funext q
    simp [bank3, envT, ConvolutionAware.basisDrawCount, ConvolutionAware.createBasisNbb]
  have hpos : 0 < fvar (bank3 envT 1 (fun n => (n : ℝ)) 2 1 1) := by
    rw [hb]
    norm_num [fvar, fmean, Fintype.sum_prod_type, Fin.sum_univ_two, Fin.sum_univ_one]
  exact convaware_c2_variance.1 envT 1 (fun n => (n : ℝ)) 2 1 1 hpos

/-- Length of the concatenation of `n` uniform blocks of `m` rows each. -/
theorem flatMapBlocks_length {γ : Type} (m : ℕ) (f : ℕ → Fin m → γ) :
    ∀ n : ℕ, (((List.range n).flatMap fun b => (List.finRange m).map (f b))).length = n * m := by
  intro n
  induction n with
  | zero => simp
  | succ k ih =>
    rw [List.range_succ, List.flatMap_append, List.length_append, ih, List.flatMap_cons,
      List.flatMap_nil, List.append_nil, List.length_map, List.length_finRange, Nat.succ_mul]

/-- Element `s` of the concatenation of `n` uniform blocks of `m` rows each:
row `s % m` of block `s / m`. -/
theorem flatMapBlocks_getD {γ : Type} (m : ℕ) (hm : 0 < m) (d : Fin m → γ) :
    ∀ (n : ℕ) (f : ℕ → Fin m → (Fin m → γ)) (s : ℕ), s < n * m →
      (((List.range n).flatMap fun b => (List.finRange m).map (f b))).getD s d
        = f (s / m) ⟨s % m, Nat.mod_lt s hm⟩ := by
  intro n
  induction n with
  | zero =>
    intro f s hs
    rw [Nat.zero_mul] at hs
    exact absurd hs (Nat.not_lt_zero s)
  | succ k ih =>
    intro f s hs
    rw [List.range_succ, List.flatMap_append, List.flatMap_cons, List.flatMap_nil,
      List.append_nil]
    by_cases hcase : s < k * m
    · rw [List.getD_append _ _ _ _ (by rw [flatMapBlocks_length]; exact hcase)]
      exact ih f s hcase
    · have hk : k * m ≤ s := Nat.le_of_not_lt hcase
      have hsu : s < k * m + m := by rw [Nat.succ_mul] at hs; exact hs
      have ht : s - k * m < m := by omega
      rw [List.getD_append_right _ _ _ _ (by rw [flatMapBlocks_length]; exact hk),
        flatMapBlocks_length]
      have hdiv : s / m = k := Nat.div_eq_of_lt_le hk (by rw [Nat.succ_mul]; exact hsu)
      have hmod : s % m = s - k * m := by
        have h2 := Nat.div_add_mod s m
        rw [hdiv] at h2
        rw [Nat.mul_comm k m]
        exact Nat.eq_sub_of_add_eq (by rw [Nat.add_comm]; exact h2)
      rw [List.getD_eq_getElem _ _ (by rw [List.length_map, List.length_finRange]; exact ht)]
      rw [List.getElem_map, List.getElem_finRange, hdiv]
      exact congrArg (f k) (Fin.ext (by simp [hmod]))

/-- `getD` of a truncated list agrees with `getD` of the list at indices
below the truncation point. -/
theorem take_getD {α : Type} (l : List α) (nn s : ℕ) (d : α) (h : s < nn) :
    (l.take nn).getD s d = l.getD s d := by
  by_cases hl : s < l.length
  · rw [List.getD_eq_getElem _ _ (by rw [List.length_take]; omega),
      List.getD_eq_getElem _ _ hl]
    exact List.getElem_take l
  · rw [List.getD_eq_default _ _ (by rw [List.length_take]; omega),
      List.getD_eq_default _ _ (by omega)]

/-- Closed form for row `s` of `_create_basis(filters, size)` when
`size > 1`: column `s % size` of the `u` factor of block `s / size` (drawn at
stream offset `off + (s / size) * size * size`). -/
theorem createBasisRows_getD
    (svdU : (n : ℕ) → Matrix (Fin n) (Fin n) ℝ → Matrix (Fin n) (Fin n) ℝ)
    (eps : ℝ) (g : ℕ → ℝ) (off filters size : ℕ) (hs : 1 < size) (s : ℕ) (h : s < filters) :
    (ConvolutionAware.createBasisRows svdU eps g off filters size).getD s (fun _ => 0)
      = fun i => svdU size (ConvolutionAware.symmetrize
          (gMat g (off + s / size * (size * size)) size)) i
          ⟨s % size, Nat.mod_lt s (Nat.lt_trans Nat.zero_lt_one hs)⟩ := by
  have hpos : 0 < size := Nat.lt_trans Nat.zero_lt_one hs
  have hnbb : ConvolutionAware.createBasisNbb filters size * size
      = filters / size * size + size := by
    rw [ConvolutionAware.createBasisNbb, Nat.add_mul, Nat.one_mul]
  have hdm := Nat.div_add_mod filters size
  have hmlt : filters % size < size := Nat.mod_lt filters hpos
  have hsm : s < ConvolutionAware.createBasisNbb filters size * size := by
    rw [hnbb]
    rw [Nat.mul_comm size (filters / size)] at hdm
    omega
  unfold ConvolutionAware.createBasisRows
  rw [if_neg (by omega : ¬size = 1)]
  rw [take_getD _ _ _ _ h]
  unfold ConvolutionAware.basisCandidates
  exact flatMapBlocks_getD size hpos (fun _ => 0)
    (ConvolutionAware.createBasisNbb filters size)
    (fun b j i => svdU size (ConvolutionAware.symmetrize
      (gMat g (off + b * (size * size)) size)) i j) s hsm

/-- C4 counterexample: at `count = dim = 2` the source generates
`nbb = 2 // 2 + 1 = 2` blocks, while the claimed repetition count
`ceil(count/dim)` is `1`. -/
theorem convaware_c4_blockcount_cex :
    ConvolutionAware.createBasisNbb 2 2 = 2 ∧ specCeilBlocks 2 2 = 1
  ∧ ConvolutionAware.createBasisNbb 2 2 ≠ specCeilBlocks 2 2 := by
  decide

/-- C4 (amended): for `count ≥ 1`, `dim > 1`, `_create_basis` builds its
candidate rows by repeating the block step exactly `count // dim + 1` times
(not `ceil(count/dim)`: one extra block when `dim` divides `count`),
concatenates the blocks, and truncates to exactly `count` rows of length
`dim`; row `s` is column `s % dim` of the `u` factor of block `s / dim`. -/
theorem convaware_c4_structure :
    ∀ (svdU : (n : ℕ) → Matrix (Fin n) (Fin n) ℝ → Matrix (Fin n) (Fin n) ℝ)
      (eps : ℝ) (g : ℕ → ℝ) (off filters size : ℕ),
      1 ≤ filters → ∀ hs : 1 < size,
      (ConvolutionAware.createBasisRows svdU eps g off filters size).length = filters
    ∧ ConvolutionAware.createBasisRows svdU eps g off filters size
        = (ConvolutionAware.basisCandidates svdU g off filters size).take filters
    ∧ (ConvolutionAware.basisCandidates svdU g off filters size).length
        = ConvolutionAware.createBasisNbb filters size * size
    ∧ ∀ s : ℕ, s < filters →
        (ConvolutionAware.createBasisRows svdU eps g off filters size).getD s (fun _ => 0)
          = fun i => svdU size (ConvolutionAware.symmetrize
              (gMat g (off + s / size * (size * size)) size)) i
              ⟨s % size, Nat.mod_lt s (Nat.lt_trans Nat.zero_lt_one hs)⟩ := by
  intro svdU eps g off filters size hf hs
  have hpos : 0 < size := Nat.lt_trans Nat.zero_lt_one hs
  have hlen : (ConvolutionAware.basisCandidates svdU g off filters size).length
      = ConvolutionAware.createBasisNbb filters size * size := by
    unfold ConvolutionAware.basisCandidates
    exact flatMapBlocks_length size _ _
  have htrLe : filters ≤ ConvolutionAware.createBasisNbb filters size * size := by
    have hnbb : ConvolutionAware.createBasisNbb filters size * size
        = filters / size * size + size := by
      rw [ConvolutionAware.createBasisNbb, Nat.add_mul, Nat.one_mul]
    have hdm := Nat.div_add_mod filters size
    have hmlt : filters % size < size := Nat.mod_lt filters hpos
    rw [hnbb]
    rw [Nat.mul_comm size (filters / size)] at hdm
    omega
  have heq : ConvolutionAware.createBasisRows svdU eps g off filters size
      = (ConvolutionAware.basisCandidates svdU g off filters size).take filters := by
    unfold ConvolutionAware.createBasisRows
    rw [if_neg (by omega : ¬size = 1)]
  refine ⟨?_, heq, hlen, ?_⟩
  · rw [heq, List.length_take, hlen]
    exact Nat.min_eq_left htrLe
  · intro s hslt
    exact createBasisRows_getD svdU eps g off filters size hs s hslt

/-- C4 witness: the amended statement applied at `count = 1`, `dim = 2` with
the identity SVD factor and the zero stream: the basis has exactly 1 row. -/
theorem convaware_c4_structure_witness :
    (ConvolutionAware.createBasisRows (fun _ _ => 1) 0 (fun _ => 0) 0 1 2).length = 1 :=
  (convaware_c4_structure (fun _ _ => 1) 0 (fun _ => 0) 0 1 2 (by norm_num) (by norm_num)).1

/-- Orthonormality of the columns of a matrix `U` with `Uᵀ * U = 1`:
distinct columns have zero inner product. -/
theorem columns_orthogonal {n : ℕ} (U : Matrix (Fin n) (Fin n) ℝ)
    (hU : U.transpose * U = 1) (a b : Fin n) (hab : a ≠ b) :
    (∑ i, U i a * U i b) = 0 := by
  have h : (∑ i, U i a * U i b) = (U.transpose * U) a b := by
    rw [Matrix.mul_apply]
    exact Finset.sum_congr rfl fun i _ => by rw [Matrix.transpose_apply]
  rw [h, hU, Matrix.one_apply_ne hab]

/-- C5: for `1 < dim` and `count ≤ dim`, assuming the (exact-arithmetic) SVD
contract that the `u` factor of the first block is orthogonal
(`uᵀ * u = 1`), any two distinct rows of `_create_basis(count, dim)` have
inner product exactly `0`, in particular of magnitude below `1e-6`. -/
theorem convaware_c5_orthogonality :
    ∀ (svdU : (n : ℕ) → Matrix (Fin n) (Fin n) ℝ → Matrix (Fin n) (Fin n) ℝ)
      (eps : ℝ) (g : ℕ → ℝ) (off filters size : ℕ),
      1 < size → filters ≤ size →
      (svdU size (ConvolutionAware.symmetrize (gMat g off size))).transpose
          * svdU size (ConvolutionAware.symmetrize (gMat g off size)) = 1 →
      ∀ p q : ℕ, p < filters → q < filters → p ≠ q →
        (∑ i, (ConvolutionAware.createBasisRows svdU eps g off filters size).getD p
              (fun _ => 0) i
            * (ConvolutionAware.createBasisRows svdU eps g off filters size).getD q
              (fun _ => 0) i) = 0
      ∧ |∑ i, (ConvolutionAware.createBasisRows svdU eps g off filters size).getD p
              (fun _ => 0) i
            * (ConvolutionAware.createBasisRows svdU eps g off filters size).getD q
              (fun _ => 0) i| < 1 / 1000000 := by
  intro svdU eps g off filters size hs hf hU p q hp hq hpq
  have hps : p < size := lt_of_lt_of_le hp hf
  have hqs : q < size := lt_of_lt_of_le hq hf
  have hrowp := createBasisRows_getD svdU eps g off filters size hs p hp
  have hrowq := createBasisRows_getD svdU eps g off filters size hs q hq
  have hzero : (∑ i, (ConvolutionAware.createBasisRows svdU eps g off filters size).getD p
        (fun _ => 0) i
      * (ConvolutionAware.createBasisRows svdU eps g off filters size).getD q
        (fun _ => 0) i) = 0 := by
    simp only [hrowp, hrowq, Nat.div_eq_of_lt hps, Nat.div_eq_of_lt hqs,
      Nat.zero_mul, Nat.add_zero]
    refine columns_orthogonal _ hU _ _ ?_
    intro hEq
    apply hpq
    have h2 : p % size = q % size := by simpa [Fin.ext_iff] using hEq
    rw [Nat.mod_eq_of_lt hps, Nat.mod_eq_of_lt hqs] at h2
    exact h2
  exact ⟨hzero, by rw [hzero]; norm_num⟩

/-- C5 witness: the statement applied at `count = dim = 2` with the identity
`u` factor (which satisfies `uᵀ * u = 1`) and the zero stream, at rows `0`
and `1`. -/
theorem convaware_c5_orthogonality_witness :
    (∑ i, (ConvolutionAware.createBasisRows (fun _ _ => 1) 0 (fun _ => 0) 0 2 2).getD 0
          (fun _ => 0) i
        * (ConvolutionAware.createBasisRows (fun _ _ => 1) 0 (fun _ => 0) 0 2 2).getD 1
          (fun _ => 0) i) = 0
  ∧ |∑ i, (ConvolutionAware.createBasisRows (fun _ _ => 1) 0 (fun _ => 0) 0 2 2).getD 0
          (fun _ => 0) i
        * (ConvolutionAware.createBasisRows (fun _ _ => 1) 0 (fun _ => 0) 0 2 2).getD 1
          (fun _ => 0) i| < 1 / 1000000 :=
  convaware_c5_orthogonality (fun _ _ => 1) 0 (fun _ => 0) 0 2 2 (by norm_num) (by norm_num)
    (by simp) 0 1 (by norm_num) (by norm_num) (by norm_num)

/-- C6 witness: the entry formula applied at the concrete matrix
`[[0, 1], [2, 3]]` and the off-diagonal position `(0, 1)`. -/
theorem convaware_c6_symmetrize_witness :
    ConvolutionAware.symmetrize
        (Matrix.of fun i j : Fin 2 => ((i.val * 2 + j.val : ℕ) : ℝ)) 0 1
      = (Matrix.of fun i j : Fin 2 => ((i.val * 2 + j.val : ℕ) : ℝ)) 0 1
        + (Matrix.of fun i j : Fin 2 => ((i.val * 2 + j.val : ℕ) : ℝ)) 1 0 :=
  (convaware_c6_symmetrize.1 2
    (Matrix.of fun i j : Fin 2 => ((i.val * 2 + j.val : ℕ) : ℝ))).2.1 0 1 (by decide)
